import Mathlib

/-!
# MultiParticleContainer (Source/ParticleContainer.cpp)

A shallow embedding of the multi-species coordination layer: the species
registry (ReadParameters and the constructor) and the per-step entry points
that zero, accumulate into and reduce the shared mesh fields.
-/

namespace WarpX

/-! ## Outcomes -/

/-- Ways in which a call stops without returning. -/
inductive Fault where
  /-- The process is terminated: a failed assertion, amrex::Abort or an uncaught exception. -/
  | abort
  /-- An operator[] access past the end of a std::vector, which is undefined behaviour. -/
  | outOfRange
  deriving DecidableEq, Repr

deriving instance DecidableEq for Except

/-! ## Species registry -/

/-- Modelled from the spec: the enumeration PCTypes is declared in ParticleContainer.H,
which is not among the sources; the two tags are the ones ParticleContainer.cpp uses. -/
inductive PCTypes where
  | Physical
  | RigidInjected
  deriving DecidableEq, Repr

/-- The concrete species object stored in one slot of allcontainers, with the
constructor arguments it was created from (ordinal and, where given, name). -/
inductive Species where
  | Physical (ispecies : Nat) (name : String)
  | RigidInjected (ispecies : Nat) (name : String)
  | Laser (ispecies : Nat)
  deriving DecidableEq, Repr

/-- The entries of the "particles" ParmParse table that ReadParameters consults for the
species collection. An entry that the input file does not give is none. -/
structure ParmParse where
  nspecies : Option Int
  species_names : Option (List String)
  rigid_injected_species : Option (List String)
  deriving DecidableEq, Repr

/-- The data members of MultiParticleContainer that ReadParameters fills in. -/
structure Params where
  nspecies : Int
  species_names : List String
  species_types : List PCTypes
  deriving DecidableEq, Repr

/-- The loop of lines 53-58: every name of rigid_injected_species is looked up with
std::find; a name that is not found fails AMREX_ALWAYS_ASSERT_WITH_MESSAGE, otherwise
species_types at the found index becomes RigidInjected. -/
def markRigidInjected (species_names : List String) :
    List String → List PCTypes → Except Fault (List PCTypes)
  | [], types => .ok types
  | name :: rest, types =>
    let i := species_names.indexOf name
    if i = species_names.length then .error .abort
    else if i < types.length then
      markRigidInjected species_names rest (types.set i .RigidInjected)
    else .error .outOfRange

/-- The member function ReadParameters (lines 32-65). The flag debug tells whether BL_ASSERT
is compiled in; initialized is the function-local static flag on entry; nspecies0 is the
in-class default of nspecies (declared in the header). The constructor calls ReadParameters
before anything else, so the vector members are still empty when the body runs. The two
flags queried at lines 61-62 play no part in the species collection and are left out. -/
def ReadParameters (debug initialized : Bool) (nspecies0 : Int) (pp : ParmParse) :
    Except Fault Params :=
  if initialized then .ok ⟨nspecies0, [], []⟩
  else
    let nspecies := pp.nspecies.getD nspecies0
    if debug && decide (nspecies < 0) then .error .abort
    else if 0 < nspecies then
      match pp.species_names with
      | none => .error .abort
      | some names =>
        if debug && decide ((names.length : Int) ≠ nspecies) then .error .abort
        else
          match markRigidInjected names (pp.rigid_injected_species.getD [])
              (List.replicate nspecies.toNat PCTypes.Physical) with
          | .error e => .error e
          | .ok types => .ok ⟨nspecies, names, types⟩
    else .ok ⟨nspecies, [], []⟩

/-- The loop of lines 19-26 over the indices still to visit: slot i of allcontainers
receives a Physical or RigidInjected object built from i and species_names[i]. -/
def fillSpecies (p : Params) :
    List Nat → List (Option Species) → Except Fault (List (Option Species))
  | [], ac => .ok ac
  | i :: is, ac =>
    match p.species_types[i]? with
    | none => .error .outOfRange
    | some PCTypes.Physical =>
      match p.species_names[i]? with
      | none => .error .outOfRange
      | some name =>
        if i < ac.length then fillSpecies p is (ac.set i (some (Species.Physical i name)))
        else .error .outOfRange
    | some PCTypes.RigidInjected =>
      match p.species_names[i]? with
      | none => .error .outOfRange
      | some name =>
        if i < ac.length then fillSpecies p is (ac.set i (some (Species.RigidInjected i name)))
        else .error .outOfRange

/-- The constructor (lines 13-30): ReadParameters, then allcontainers.resize(n), the loop over
the declared species and, with WarpX::use_laser, the laser container in slot n-1. A slot
that holds no object is none. -/
def MultiParticleContainer (debug initialized : Bool) (nspecies0 : Int) (use_laser : Bool)
    (pp : ParmParse) : Except Fault (List (Option Species)) :=
  match ReadParameters debug initialized nspecies0 pp with
  | .error e => .error e
  | .ok p =>
    let n : Int := if use_laser then p.nspecies + 1 else p.nspecies
    if n < 0 then .error .abort
    else
      match fillSpecies p (List.range p.nspecies.toNat) (List.replicate n.toNat none) with
      | .error e => .error e
      | .ok ac =>
        if use_laser then
          if 0 ≤ n - 1 ∧ (n - 1).toNat < ac.length then
            .ok (ac.set (n - 1).toNat (some (Species.Laser (n - 1).toNat)))
          else .error .outOfRange
        else .ok ac

/-- One cell of a field: depth 0 is a valid (interior) cell, depth k > 0 a cell of the k-th
ghost layer around the valid region. -/
structure Cell (F : Type) where
  depth : Nat
  val : F
  deriving DecidableEq, Repr

/-- A single-component amrex::MultiFab: its ghost width nGrow() and its cells, valid and ghost,
in a fixed storage order. -/
structure MultiFab (F : Type) where
  nGrow : Nat
  cells : List (Cell F)
  deriving DecidableEq, Repr

/-- A field holds no cell further out than its own ghost width. -/
abbrev MultiFab.wellFormed {F : Type} (mf : MultiFab F) : Prop :=
  ∀ c ∈ mf.cells, c.depth ≤ mf.nGrow

/-- Two fields have the same layout: same ghost width, same cells in the same order. -/
abbrev MultiFab.sameLayout {F : Type} (a b : MultiFab F) : Prop :=
  a.nGrow = b.nGrow ∧ a.cells.map Cell.depth = b.cells.map Cell.depth

/-- The AMReX call mf.setVal(val, nghost): val is stored in every valid cell and in the ghost
cells of the first nghost layers; cells further out keep their value. AMReX expects nghost
not to exceed nGrow(); a well-formed field holds no cell beyond its own ghost width, so a
larger count reaches all of its cells. -/
def MultiFab.setVal {F : Type} (mf : MultiFab F) (val : F) (nghost : Nat) : MultiFab F :=
  { mf with cells := mf.cells.map fun c => if c.depth ≤ nghost then { c with val := val } else c }

/-- The AMReX call mf.setVal(val) without a ghost count: val is stored in the entire region of
the field, valid and ghost cells alike. -/
def MultiFab.setValAll {F : Type} (mf : MultiFab F) (val : F) : MultiFab F :=
  { mf with cells := mf.cells.map fun c => { c with val := val } }

/-- Every cell of the field, valid or ghost, holds zero. -/
abbrev MultiFab.allZero {F : Type} [Zero F] (mf : MultiFab F) : Prop :=
  ∀ c ∈ mf.cells, c.val = 0

/-- Cell by cell, the source value is added to the destination value where the destination
cell lies within nghost layers. -/
def addCells {F : Type} [Add F] (nghost : Nat) : List (Cell F) → List (Cell F) → List (Cell F)
  | d :: ds, s :: ss =>
    (if d.depth ≤ nghost then { d with val := d.val + s.val } else d) :: addCells nghost ds ss
  | ds, _ => ds

/-- The AMReX call MultiFab::Add(dst, src, 0, 0, 1, nghost) on single-component fields. -/
def MultiFab.Add {F : Type} [Add F] (dst src : MultiFab F) (nghost : Nat) : MultiFab F :=
  { dst with cells := addCells nghost dst.cells src.cells }

/-- The fields that Evolve deposits into: jx, jy, jz by reference, rho and rho2 by pointer
(none for a null pointer). -/
structure Currents (F : Type) where
  jx : MultiFab F
  jy : MultiFab F
  jz : MultiFab F
  rho : Option (MultiFab F)
  rho2 : Option (MultiFab F)
  deriving DecidableEq, Repr

/-- Two optional fields are both absent, or both present with the same layout. -/
def sameLayoutOpt {F : Type} : Option (MultiFab F) → Option (MultiFab F) → Prop
  | none, none => True
  | some a, some b => a.sameLayout b
  | _, _ => False

/-- The two sets of fields differ at most in the values that their cells hold. -/
def Currents.sameLayout {F : Type} (c d : Currents F) : Prop :=
  c.jx.sameLayout d.jx ∧ c.jy.sameLayout d.jy ∧ c.jz.sameLayout d.jz
    ∧ sameLayoutOpt c.rho d.rho ∧ sameLayoutOpt c.rho2 d.rho2

/-- Every field of the set that is present holds zero in every cell. -/
def Currents.allZero {F : Type} [Zero F] (c : Currents F) : Prop :=
  c.jx.allZero ∧ c.jy.allZero ∧ c.jz.allZero
    ∧ (∀ m ∈ c.rho, m.allZero) ∧ (∀ m ∈ c.rho2, m.allZero)

/-- The read-only arguments of Evolve. -/
structure EvolveArgs (F : Type) where
  lev : Int
  Ex : MultiFab F
  Ey : MultiFab F
  Ez : MultiFab F
  Bx : MultiFab F
  By : MultiFab F
  Bz : MultiFab F
  t : F
  dt : F

/-- The electrostatic field argument of EvolveES: three components per level. -/
abbrev EField (F : Type) : Type := List (MultiFab F × MultiFab F × MultiFab F)

/-! ## External collaborators -/

/-- The operations consumed from the species objects (type S) and from the grid subsystem.
A call that may change the species or the fields it is handed returns their new values.
G is amrex::Geometry and P amrex::Periodicity. -/
structure External (S F G P : Type) where
  DepositCharge : S → List (MultiFab F) → Bool → S × List (MultiFab F)
  EvolveES : S → EField F → List (MultiFab F) → F → F → S × List (MultiFab F)
  Evolve : S → EvolveArgs F → Currents F → S × Currents F
  GetChargeDensity : S → Int → Bool → MultiFab F
  sumParticleCharge : S → Bool → F
  NumberOfParticlesInGrid : S → Int → Bool → Bool → List Int
  Geom : S → Int → G
  periodicity : G → P
  SumBoundary : MultiFab F → P → MultiFab F

/-! ## Call traces -/

/-- The fields passed to Evolve. -/
inductive FieldId where
  | jx | jy | jz | rho | rho2
  deriving DecidableEq, Repr

/-- The calls that the entry points make on the shared fields and on the species. -/
inductive Event where
  /-- The call rho[lev]->setVal(0.0, nghost). -/
  | setVal (lev nghost : Nat)
  /-- The call f.setVal(0.0) on one of the fields of Evolve. -/
  | setValAll (f : FieldId)
  /-- The call allcontainers[i]->DepositCharge(rho, localOnly). -/
  | DepositCharge (i : Nat) (localOnly : Bool)
  /-- The call EvolveES on species i. -/
  | EvolveES (i : Nat)
  /-- The call Evolve on species i. -/
  | Evolve (i : Nat)
  /-- The call rho[lev]->SumBoundary(period). -/
  | SumBoundary (lev : Nat)
  deriving DecidableEq, Repr

/-- The state threaded through DepositCharge and EvolveES: the species, the per-level charge
density and the calls made so far. -/
structure Run (S F : Type) where
  allcontainers : List S
  rho : List (MultiFab F)
  log : List Event
  deriving DecidableEq, Repr

/-- The state threaded through Evolve. -/
structure RunEM (S F : Type) where
  allcontainers : List S
  fields : Currents F
  log : List Event
  deriving DecidableEq, Repr

/-! ## Loops -/

/-- A counted loop whose body may fault: the body runs for each index of the list in turn and
the loop stops at the first fault. -/
def forIndices {σ : Type} (body : Nat → σ → Except Fault σ) : List Nat → σ → Except Fault σ
  | [], s => .ok s
  | i :: is, s =>
    match body i s with
    | .error e => .error e
    | .ok s1 => forIndices body is s1

/-- A loop over all species in collection order, the species with index i being called with
the shared data d as the previous species left it; every call is recorded. -/
def forEachSpecies {S D : Type} (call : S → D → S × D) (ev : Nat → Event) :
    Nat → List S → D → List Event → List S × D × List Event
  | _, [], d, log => ([], d, log)
  | i, pc :: pcs, d, log =>
    let r := call pc d
    let rest := forEachSpecies call ev (i + 1) pcs r.2 (log ++ [ev i])
    (r.1 :: rest.1, rest.2.1, rest.2.2)

/-! ## Deposition and reduction -/

/-- The body of the loops at lines 111-113 and 175-177: rho[i]->setVal(0.0, ng). -/
def zeroLevel {S F : Type} [Zero F] (ng : Nat) (i : Nat) (r : Run S F) : Except Fault (Run S F) :=
  match r.rho[i]? with
  | none => .error .outOfRange
  | some mf => .ok { r with rho := r.rho.set i (mf.setVal 0 ng), log := r.log ++ [Event.setVal i ng] }

/-- The body of the loops at lines 119-122 and 184-187: the geometry of level i is taken from
allcontainers[0] and rho[i] is reduced with its periodicity. -/
def sumBoundaryLevel {S F G P : Type} (X : External S F G P) (i : Nat) (r : Run S F) :
    Except Fault (Run S F) :=
  match r.allcontainers[0]? with
  | none => .error .outOfRange
  | some pc0 =>
    match r.rho[i]? with
    | none => .error .outOfRange
    | some mf =>
      .ok { r with
        rho := r.rho.set i (X.SumBoundary mf (X.periodicity (X.Geom pc0 (i : Int)))),
        log := r.log ++ [Event.SumBoundary i] }

/-- The zeroing that opens DepositCharge and EvolveES (lines 108-113 and 172-177): the ghost
count is read from rho[0] and used for every level. -/
def zeroAllLevels {S F : Type} [Zero F] (r : Run S F) : Except Fault (Run S F) :=
  match r.rho with
  | [] => .error .outOfRange
  | rho0 :: _ => forIndices (zeroLevel rho0.nGrow) (List.range r.rho.length) r

/-- The loop at lines 179-181. -/
def depositAllSpecies {S F G P : Type} (X : External S F G P) (r : Run S F) : Run S F :=
  let out := forEachSpecies (fun pc rho => X.DepositCharge pc rho true)
    (fun i => Event.DepositCharge i true) 0 r.allcontainers r.rho r.log
  ⟨out.1, out.2.1, out.2.2⟩

/-- The member function DepositCharge (lines 168-189). -/
def DepositCharge {S F G P : Type} [Zero F] (X : External S F G P) (allcontainers : List S)
    (rho : List (MultiFab F)) (localFlag : Bool) : Except Fault (Run S F) :=
  let nlevs := rho.length
  match zeroAllLevels ⟨allcontainers, rho, []⟩ with
  | .error e => .error e
  | .ok r1 =>
    let r2 := depositAllSpecies X r1
    if !localFlag then forIndices (sumBoundaryLevel X) (List.range nlevs) r2
    else .ok r2

/-- The loop at lines 115-117. -/
def evolveESAllSpecies {S F G P : Type} (X : External S F G P) (E : EField F) (t dt : F)
    (r : Run S F) : Run S F :=
  let out := forEachSpecies (fun pc rho => X.EvolveES pc E rho t dt)
    (fun i => Event.EvolveES i) 0 r.allcontainers r.rho r.log
  ⟨out.1, out.2.1, out.2.2⟩

/-- The member function EvolveES (lines 102-123). -/
def EvolveES {S F G P : Type} [Zero F] (X : External S F G P) (allcontainers : List S)
    (E : EField F) (rho : List (MultiFab F)) (t dt : F) : Except Fault (Run S F) :=
  let nlevs := rho.length
  match zeroAllLevels ⟨allcontainers, rho, []⟩ with
  | .error e => .error e
  | .ok r1 =>
    let r2 := evolveESAllSpecies X E t dt r1
    forIndices (sumBoundaryLevel X) (List.range nlevs) r2

/-- Lines 132-136 of Evolve: the three current components, and the charge densities that
were supplied, are set to zero over their full extent. -/
def zeroCurrents {F : Type} [Zero F] (c : Currents F) : Currents F :=
  { jx := c.jx.setValAll 0
    jy := c.jy.setValAll 0
    jz := c.jz.setValAll 0
    rho := c.rho.map fun m => m.setValAll 0
    rho2 := c.rho2.map fun m => m.setValAll 0 }

/-- The calls recorded for lines 132-136. -/
def zeroCurrentsLog {F : Type} (c : Currents F) : List Event :=
  [Event.setValAll .jx, Event.setValAll .jy, Event.setValAll .jz]
  ++ (if c.rho.isSome then [Event.setValAll .rho] else [])
  ++ (if c.rho2.isSome then [Event.setValAll .rho2] else [])

/-- The member function Evolve (lines 125-140). -/
def Evolve {S F G P : Type} [Zero F] (X : External S F G P) (args : EvolveArgs F)
    (allcontainers : List S) (c : Currents F) : RunEM S F :=
  let out := forEachSpecies (fun pc cur => X.Evolve pc args cur) (fun i => Event.Evolve i)
    0 allcontainers (zeroCurrents c) (zeroCurrentsLog c)
  ⟨out.1, out.2.1, out.2.2⟩

/-- The member function GetChargeDensity (lines 191-204). -/
def GetChargeDensity {S F G P : Type} [Add F] (X : External S F G P) (allcontainers : List S)
    (lev : Int) (localFlag : Bool) : Except Fault (MultiFab F) :=
  match allcontainers with
  | [] => .error .outOfRange
  | pc0 :: rest =>
    let rho := rest.foldl
      (fun rho pci => MultiFab.Add rho (X.GetChargeDensity pci lev true) rho.nGrow)
      (X.GetChargeDensity pc0 lev true)
    if !localFlag then .ok (X.SumBoundary rho (X.periodicity (X.Geom pc0 lev)))
    else .ok rho

/-- The member function sumParticleCharge (lines 206-214). -/
def sumParticleCharge {S F G P : Type} [Add F] (X : External S F G P) (allcontainers : List S)
    (localFlag : Bool) : Except Fault F :=
  match allcontainers with
  | [] => .error .outOfRange
  | pc0 :: rest =>
    .ok (rest.foldl (fun total pci => total + X.sumParticleCharge pci localFlag)
      (X.sumParticleCharge pc0 localFlag))

/-- The elementwise sum of value lists taken in collection order: the values of the first
species, to which the values of each further species are added cell by cell. -/
def elementwiseSum {F : Type} [Add F] (first : List F) (others : List (List F)) : List F :=
  others.foldl (List.zipWith (· + ·)) first

/-! ## Particle counts -/

/-- The value that a 64-bit long holds after an addition whose exact result is x
(wrap-around in the range from -2^63 to 2^63 - 1). -/
def wrapLong (x : Int) : Int := (x + 2 ^ 63) % 2 ^ 64 - 2 ^ 63

/-- The body of the loop at lines 240-242: r[j] += ri[j]. -/
def addCount (ri : List Int) (j : Nat) (r : List Int) : Except Fault (List Int) :=
  match ri[j]?, r[j]? with
  | some x, some v => .ok (r.set j (wrapLong (v + x)))
  | _, _ => .error .outOfRange

/-- The loop at lines 238-243 over the species after the first. -/
def addSpeciesCounts {S F G P : Type} (X : External S F G P) (lev : Int) :
    List S → List Int → Except Fault (List Int)
  | [], r => .ok r
  | pci :: rest, r =>
    let ri := X.NumberOfParticlesInGrid pci lev true true
    match forIndices (addCount ri) (List.range ri.length) r with
    | .error e => .error e
    | .ok r1 => addSpeciesCounts X lev rest r1

/-- Lines 236-243 of NumberOfParticlesInGrid: the vector r of one rank before the reduction. -/
def localParticlesInGrid {S F G P : Type} (X : External S F G P) (allcontainers : List S)
    (lev : Int) : Except Fault (List Int) :=
  match allcontainers with
  | [] => .error .outOfRange
  | pc0 :: rest => addSpeciesCounts X lev rest (X.NumberOfParticlesInGrid pc0 lev true true)

/-- The AMReX call ParallelDescriptor::ReduceLongSum(r.data(), r.size()), the cross-rank
long-integer-sum reduction: on the rank whose vector is mine, entry j becomes the sum over
all ranks of their entry j. The list contribs holds the vectors of all ranks. -/
def ReduceLongSum (contribs : List (List Int)) (mine : List Int) : List Int :=
  (List.range mine.length).map fun j => wrapLong ((contribs.map fun c => c.getD j 0).sum)

/-- The vectors r of all ranks before the reduction, rank by rank. -/
def allLocalParticlesInGrid {S F G P : Type} (X : External S F G P) (lev : Int) :
    List (List S) → Except Fault (List (List Int))
  | [] => .ok []
  | pcs :: ranks =>
    match localParticlesInGrid X pcs lev with
    | .error e => .error e
    | .ok r =>
      match allLocalParticlesInGrid X lev ranks with
      | .error e => .error e
      | .ok rs => .ok (r :: rs)

/-- The member function NumberOfParticlesInGrid (lines 233-246), run on every rank: ranks lists
the species collection of each rank, the result lists the vector returned on each rank. -/
def NumberOfParticlesInGrid {S F G P : Type} (X : External S F G P) (ranks : List (List S))
    (lev : Int) : Except Fault (List (List Int)) :=
  match allLocalParticlesInGrid X lev ranks with
  | .error e => .error e
  | .ok locals => .ok (locals.map (ReduceLongSum locals))

/-- The exact sum, over all ranks and all species, of the valid-only rank-local count that
the species reports for grid j. -/
def exactGridTotal {S F G P : Type} (X : External S F G P) (ranks : List (List S)) (lev : Int)
    (j : Nat) : Int :=
  (ranks.map fun pcs =>
    (pcs.map fun pc => (X.NumberOfParticlesInGrid pc lev true true).getD j 0).sum).sum

/-- The number of live particles of all species on all ranks at a level. -/
def totalLiveParticles {S F G P : Type} (X : External S F G P) (ranks : List (List S))
    (lev : Int) : Int :=
  (ranks.map fun pcs =>
    (pcs.map fun pc => (X.NumberOfParticlesInGrid pc lev true true).sum).sum).sum

/-! ## Concrete inputs -/

/-- A field with ghost width 0 and one valid cell holding 5. -/
def fieldLevel0 : MultiFab Int := ⟨0, [⟨0, 5⟩]⟩

/-- A field with ghost width 1: one valid cell holding 5 and one ghost cell holding 7. -/
def fieldLevel1 : MultiFab Int := ⟨1, [⟨0, 5⟩, ⟨1, 7⟩]⟩

/-- Species that are plain records of what they were last handed: DepositCharge and EvolveES
store the charge density they receive and leave the fields as they are; the density of a
species is the field it stores at the requested level; the count vector is a fixed pair. -/
def recorder : External (List (MultiFab Int)) Int Unit Unit where
  DepositCharge := fun _ rho _ => (rho, rho)
  EvolveES := fun _ _ rho _ _ => (rho, rho)
  Evolve := fun pc _ c => (pc, c)
  GetChargeDensity := fun pc lev _ => pc.getD lev.toNat ⟨0, []⟩
  sumParticleCharge := fun _ _ => 0
  NumberOfParticlesInGrid := fun pc _ _ _ => [pc.length, 1]
  Geom := fun _ _ => ()
  periodicity := fun _ => ()
  SumBoundary := fun mf _ => mf

theorem markRigidInjected_missing (names : List String) :
    ∀ (overrides : List String) (types : List PCTypes), names.length ≤ types.length →
      (∃ x ∈ overrides, x ∉ names) →
      markRigidInjected names overrides types = .error .abort := by
  intro overrides
  induction overrides with
  | nil => intro types _ h; simp at h
  | cons x rest ih =>
    intro types hl hmiss
    rw [markRigidInjected]
    by_cases hx : x ∈ names
    · have hi : names.indexOf x < names.length := List.indexOf_lt_length.mpr hx
      have hne : names.indexOf x ≠ names.length := Nat.ne_of_lt hi
      have hit : names.indexOf x < types.length := Nat.lt_of_lt_of_le hi hl
      simp only [hne, hit, if_true, if_false]
      apply ih _ (by simpa using hl)
      obtain ⟨y, hy, hyn⟩ := hmiss
      rcases List.mem_cons.mp hy with h | h
      · exact absurd (h ▸ hx) hyn
      · exact ⟨y, h, hyn⟩
    · have : names.indexOf x = names.length := List.indexOf_eq_length.mpr hx
      simp [this]

/-- C7, counterexample. With nspecies = 0 the override list is never read: the name beam
occurs in no species-name list, yet ReadParameters returns normally. -/
theorem ReadParameters_zero_species_ignores_overrides :
    ("beam" ∈ ["beam"] ∧ "beam" ∉ ([] : List String))
    ∧ ReadParameters true false 1 ⟨some 0, some [], some ["beam"]⟩ = .ok ⟨0, [], []⟩
    ∧ ReadParameters false false 1 ⟨some 0, some [], some ["beam"]⟩ = .ok ⟨0, [], []⟩ := by
  decide

/-- C7, amended. When the declared count nspecies is positive and either BL_ASSERT is
compiled in or the species-name list has at most nspecies entries, an override list with at
least one name that does not occur in the species-name list makes the first ReadParameters
end in a fatal error, so no species type assignment is produced. -/
theorem ReadParameters_unknown_override (debug : Bool) (nspecies0 nspecies : Int)
    (names : Option (List String)) (overrides : List String) (hpos : 0 < nspecies)
    (hsafe : debug = true ∨ ((names.getD []).length : Int) ≤ nspecies)
    (hmiss : ∃ x ∈ overrides, x ∉ names.getD []) :
    ReadParameters debug false nspecies0 ⟨some nspecies, names, some overrides⟩
      = .error .abort := by
  have hnneg : ¬ (nspecies < 0) := by omega
  cases names with
  | none => simp [ReadParameters, hpos, hnneg]
  | some nm =>
    simp only [Option.getD_some] at hsafe hmiss
    simp only [ReadParameters, Option.getD_some, hpos, hnneg, decide_False, Bool.and_false,
      Bool.false_eq_true, if_false, if_true]
    by_cases hchk : (debug && decide ((nm.length : Int) ≠ nspecies)) = true
    · rw [if_pos hchk]
    · rw [if_neg hchk]
      have hle : nm.length ≤ (List.replicate nspecies.toNat PCTypes.Physical).length := by
        rw [List.length_replicate]
        rcases hsafe with hd | hl
        · subst hd
          simp at hchk
          omega
        · omega
      rw [markRigidInjected_missing nm overrides _ hle hmiss]

/-- Witness for C7 amended: two declared species e and i, override list naming beam. -/
theorem ReadParameters_unknown_override_witness :
    ((0 : Int) < 2 ∧ (false = true ∨ (((some ["e", "i"]).getD []).length : Int) ≤ 2)
      ∧ ∃ x ∈ ["e", "beam"], x ∉ (some ["e", "i"]).getD [])
    ∧ ReadParameters false false 1 ⟨some 2, some ["e", "i"], some ["e", "beam"]⟩
      = .error .abort :=
  ⟨⟨by decide, by decide, by decide⟩,
    ReadParameters_unknown_override false 1 2 (some ["e", "i"]) ["e", "beam"] (by decide)
      (by decide) (by decide)⟩

/-- The override check is reached only through an in-range write: in a release build with
more names than declared species, an overridden name found past the declared count makes
the write to species_types fall outside the vector before the unknown name is looked at. -/
theorem ReadParameters_surplus_names_out_of_range :
    ReadParameters false false 1 ⟨some 1, some ["a", "b"], some ["b", "zzz"]⟩
      = .error .outOfRange := by
  decide

/-- In a debug build a positive declared count that differs from the number of names stops
ReadParameters, and with it the constructor, with a fatal error. -/
theorem name_count_mismatch_debug (nspecies0 nspecies : Int) (use_laser : Bool)
    (names : List String) (overrides : Option (List String)) (hpos : 0 < nspecies)
    (hne : (names.length : Int) ≠ nspecies) :
    ReadParameters true false nspecies0 ⟨some nspecies, some names, overrides⟩ = .error .abort
    ∧ MultiParticleContainer true false nspecies0 use_laser ⟨some nspecies, some names, overrides⟩
      = .error .abort := by
  have hnneg : ¬ (nspecies < 0) := by omega
  have h : ReadParameters true false nspecies0 ⟨some nspecies, some names, overrides⟩
      = .error .abort := by
    simp [ReadParameters, hpos, hnneg, hne]
  exact ⟨h, by simp [MultiParticleContainer, h]⟩

/-- C8. With BL_ASSERT compiled out the length of the species-name list is not checked:
nspecies = 1 with two names yields a species collection, and nspecies = 2 with one name passes
ReadParameters and then reads species_names[1] past the end of the vector in the
constructor. Only the debug build stops with a fatal error. -/
theorem name_count_mismatch_release :
    MultiParticleContainer false false 1 false ⟨some 1, some ["a", "b"], none⟩
        = .ok [some (.Physical 0 "a")]
    ∧ ReadParameters false false 1 ⟨some 2, some ["e"], none⟩
        = .ok ⟨2, ["e"], [.Physical, .Physical]⟩
    ∧ MultiParticleContainer false false 1 false ⟨some 2, some ["e"], none⟩
        = .error .outOfRange
    ∧ MultiParticleContainer true false 1 false ⟨some 2, some ["e"], none⟩ = .error .abort
    ∧ MultiParticleContainer true false 1 false ⟨some 1, some ["a", "b"], none⟩
        = .error .abort := by
  decide

/-! ## Theorems: loops -/

theorem forIndices_inv {σ : Type} (body : Nat → σ → Except Fault σ) (Inv : σ → Prop)
    (log : σ → List Event) (ev : Nat → Event) :
    ∀ (is : List Nat),
      (∀ i ∈ is, ∀ s, Inv s → ∃ s1, body i s = .ok s1 ∧ Inv s1 ∧ log s1 = log s ++ [ev i]) →
      ∀ s, Inv s → ∃ s1, forIndices body is s = .ok s1 ∧ Inv s1 ∧ log s1 = log s ++ is.map ev := by
  intro is
  induction is with
  | nil => intro _ s hs; exact ⟨s, rfl, hs, by simp⟩
  | cons i rest ih =>
    intro hbody s hs
    obtain ⟨s1, h1, hinv1, hlog1⟩ := hbody i (List.mem_cons_self _ _) s hs
    obtain ⟨s2, h2, hinv2, hlog2⟩ :=
      ih (fun j hj t ht => hbody j (List.mem_cons_of_mem _ hj) t ht) s1 hinv1
    refine ⟨s2, ?_, hinv2, ?_⟩
    · rw [forIndices, h1]; exact h2
    · rw [hlog2, hlog1]; simp

theorem zeroLevel_ok {S F : Type} [Zero F] (ng i : Nat) (r : Run S F) (h : i < r.rho.length) :
    ∃ r1, zeroLevel ng i r = .ok r1
      ∧ (r1.rho.length = r.rho.length ∧ r1.allcontainers = r.allcontainers)
      ∧ r1.log = r.log ++ [Event.setVal i ng] := by
  unfold zeroLevel
  rw [List.getElem?_eq_getElem h]
  exact ⟨_, rfl, ⟨by simp, rfl⟩, rfl⟩

theorem sumBoundaryLevel_empty {S F G P : Type} (X : External S F G P) (i : Nat) (r : Run S F)
    (hp : r.allcontainers = []) : sumBoundaryLevel X i r = .error .outOfRange := by
  unfold sumBoundaryLevel
  rw [hp]
  rfl

theorem zeroAllLevels_ok {S F : Type} [Zero F] (pcs : List S) (rho0 : MultiFab F)
    (rest : List (MultiFab F)) :
    ∃ r1, zeroAllLevels (⟨pcs, rho0 :: rest, []⟩ : Run S F) = .ok r1
      ∧ (r1.rho.length = rest.length + 1 ∧ r1.allcontainers = pcs)
      ∧ r1.log = (List.range (rest.length + 1)).map fun i => Event.setVal i rho0.nGrow := by
  have h := forIndices_inv (zeroLevel (S := S) (F := F) rho0.nGrow)
    (fun r => r.rho.length = rest.length + 1 ∧ r.allcontainers = pcs) Run.log
    (fun i => Event.setVal i rho0.nGrow) (List.range (rest.length + 1))
    (fun i hi s hs => by
      obtain ⟨s1, h1, h2, h3⟩ := zeroLevel_ok rho0.nGrow i s (by
        rw [hs.1]; exact List.mem_range.mp hi)
      exact ⟨s1, h1, ⟨h2.1.trans hs.1, h2.2.trans hs.2⟩, h3⟩)
    ⟨pcs, rho0 :: rest, []⟩ ⟨by simp, rfl⟩
  simpa [zeroAllLevels] using h

theorem zeroLevel_loop {S F : Type} [Zero F] (ng : Nat) (pcs : List S) :
    ∀ (rem pre : List (MultiFab F)) (log : List Event),
      forIndices (zeroLevel ng) (List.range' pre.length rem.length)
          (⟨pcs, pre ++ rem, log⟩ : Run S F)
        = .ok ⟨pcs, pre ++ rem.map (fun mf => mf.setVal 0 ng),
            log ++ (List.range' pre.length rem.length).map fun i => Event.setVal i ng⟩ := by
  intro rem
  induction rem with
  | nil => intro pre log; simp [forIndices]
  | cons mf rem ih =>
    intro pre log
    have hmf : (pre ++ mf :: rem)[pre.length]? = some mf := by
      rw [List.getElem?_append_right (Nat.le_refl _)]; simp
    have hset : (pre ++ mf :: rem).set pre.length (mf.setVal 0 ng)
        = (pre ++ [mf.setVal 0 ng]) ++ rem := by
      rw [List.set_append_right _ _ (Nat.le_refl _)]; simp
    have hnext := ih (pre ++ [mf.setVal 0 ng]) (log ++ [Event.setVal pre.length ng])
    simp only [List.length_append, List.length_singleton, List.append_assoc,
      List.singleton_append] at hnext
    simp only [List.length_cons, List.range'_succ, forIndices, zeroLevel, hmf, hset,
      List.append_assoc, List.singleton_append, hnext, List.map_cons]

theorem zeroAllLevels_eq {S F : Type} [Zero F] (pcs : List S) (rho0 : MultiFab F)
    (rest : List (MultiFab F)) :
    zeroAllLevels (⟨pcs, rho0 :: rest, []⟩ : Run S F)
      = .ok ⟨pcs, (rho0 :: rest).map (fun mf => mf.setVal 0 rho0.nGrow),
          (List.range (rest.length + 1)).map fun i => Event.setVal i rho0.nGrow⟩ := by
  have h := zeroLevel_loop rho0.nGrow pcs (rho0 :: rest) [] []
  simp only [List.length_nil, List.nil_append, ← List.range_eq_range', List.length_cons] at h
  simpa [zeroAllLevels] using h

theorem setVal_allZero {F : Type} [Zero F] (mf : MultiFab F) (ng : Nat) (hwf : mf.wellFormed)
    (hng : mf.nGrow ≤ ng) : (mf.setVal 0 ng).allZero := by
  intro c hc
  simp only [MultiFab.setVal, List.mem_map] at hc
  obtain ⟨c0, hc0, rfl⟩ := hc
  have h : c0.depth ≤ ng := Nat.le_trans (hwf c0 hc0) hng
  simp [h]

/-- The zeroing is complete on the levels whose ghost width does not exceed the one of
level 0: when this holds for every level, every cell of every level holds zero when the
first species is called. -/
theorem zeroAllLevels_allZero {S F : Type} [Zero F] (pcs : List S) (rho0 : MultiFab F)
    (rest : List (MultiFab F))
    (h : ∀ mf ∈ rho0 :: rest, mf.wellFormed ∧ mf.nGrow ≤ rho0.nGrow) :
    ∃ r1, zeroAllLevels (⟨pcs, rho0 :: rest, []⟩ : Run S F) = .ok r1
      ∧ r1.allcontainers = pcs ∧ ∀ mf ∈ r1.rho, mf.allZero := by
  refine ⟨_, zeroAllLevels_eq pcs rho0 rest, rfl, ?_⟩
  intro mf hmf
  obtain ⟨m0, hm0, rfl⟩ := List.mem_map.mp hmf
  exact setVal_allZero m0 rho0.nGrow (h m0 hm0).1 (h m0 hm0).2

/-! ## Theorems: deposition and reduction -/

/-- C3. The ghost count used for every level is the one of level 0. With level 0 of ghost
width 0 and level 1 of ghost width 1 holding 7 in its ghost cell, both fields well formed,
the zeroing leaves that 7 in place, and the first species called by DepositCharge and by
EvolveES is handed a level 1 whose ghost cell still holds 7 (the recording species keeps the
fields it was handed as its state). -/
theorem zeroing_uses_ghost_width_of_level0 :
    (fieldLevel0.wellFormed ∧ fieldLevel1.wellFormed)
    ∧ zeroAllLevels (⟨[[]], [fieldLevel0, fieldLevel1], []⟩ : Run (List (MultiFab Int)) Int)
        = .ok ⟨[[]], [⟨0, [⟨0, 0⟩]⟩, ⟨1, [⟨0, 0⟩, ⟨1, 7⟩]⟩], [.setVal 0 0, .setVal 1 0]⟩
    ∧ (DepositCharge recorder [[]] [fieldLevel0, fieldLevel1] true).map Run.allcontainers
        = .ok [[⟨0, [⟨0, 0⟩]⟩, ⟨1, [⟨0, 0⟩, ⟨1, 7⟩]⟩]]
    ∧ (EvolveES recorder [[]] [] [fieldLevel0, fieldLevel1] 0 0).map Run.allcontainers
        = .ok [[⟨0, [⟨0, 0⟩]⟩, ⟨1, [⟨0, 0⟩, ⟨1, 7⟩]⟩]] := by
  decide

/-- C10. With nspecies = 0 and the laser flag unset the constructor accepts the configuration
and produces the empty collection; on it sumParticleCharge, GetChargeDensity and
NumberOfParticlesInGrid read allcontainers[0] at once, and DepositCharge with local = false
and EvolveES read it in their boundary-reduction loop: each access is past the end of the
vector. -/
theorem empty_collection_reads_out_of_range {S F G P : Type} [Zero F] [Add F]
    (X : External S F G P) (debug : Bool) (nspecies0 lev : Int) (localFlag : Bool)
    (E : EField F) (rho0 : MultiFab F) (rest : List (MultiFab F)) (t dt : F) :
    MultiParticleContainer debug false nspecies0 false ⟨some 0, none, none⟩ = .ok []
    ∧ sumParticleCharge X [] localFlag = .error .outOfRange
    ∧ GetChargeDensity X [] lev localFlag = .error .outOfRange
    ∧ NumberOfParticlesInGrid X [[]] lev = .error .outOfRange
    ∧ DepositCharge X [] (rho0 :: rest) false = .error .outOfRange
    ∧ EvolveES X [] E (rho0 :: rest) t dt = .error .outOfRange := by
  obtain ⟨r1, hz, ⟨_, hpc1⟩, _⟩ := zeroAllLevels_ok (S := S) [] rho0 rest
  refine ⟨?_, rfl, rfl, rfl, ?_, ?_⟩
  · cases debug <;> simp [MultiParticleContainer, ReadParameters, fillSpecies]
  · have h2 : (depositAllSpecies X r1).allcontainers = [] := by
      simp [depositAllSpecies, hpc1, forEachSpecies]
    simp only [DepositCharge, hz, Bool.not_false, if_true, List.length_cons,
      List.range_succ_eq_map, forIndices, sumBoundaryLevel_empty X 0 _ h2]
  · have h2 : (evolveESAllSpecies X E t dt r1).allcontainers = [] := by
      simp [evolveESAllSpecies, hpc1, forEachSpecies]
    simp only [EvolveES, hz, List.length_cons, List.range_succ_eq_map, forIndices,
      sumBoundaryLevel_empty X 0 _ h2]

/-! ## Theorems: combined charge density -/

theorem addCells_spec {F : Type} [Add F] (ng : Nat) :
    ∀ (ds ss : List (Cell F)), ds.map Cell.depth = ss.map Cell.depth →
      (∀ c ∈ ds, c.depth ≤ ng) →
      (addCells ng ds ss).map Cell.depth = ds.map Cell.depth
        ∧ (addCells ng ds ss).map Cell.val
          = List.zipWith (· + ·) (ds.map Cell.val) (ss.map Cell.val) := by
  intro ds
  induction ds with
  | nil => intro ss _ _; cases ss <;> simp [addCells]
  | cons d ds ih =>
    intro ss hdep hle
    cases ss with
    | nil => simp at hdep
    | cons s ss =>
      simp only [List.map_cons, List.cons.injEq] at hdep
      obtain ⟨h1, h2⟩ := ih ss hdep.2 (fun c hc => hle c (List.mem_cons_of_mem _ hc))
      have hd : d.depth ≤ ng := hle d (List.mem_cons_self _ _)
      simp [addCells, hd, h1, h2]

theorem elementwiseSum_cons {F : Type} [Add F] (first other : List F) (others : List (List F)) :
    elementwiseSum first (other :: others)
      = elementwiseSum (List.zipWith (· + ·) first other) others := rfl

theorem foldl_Add_spec {S F G P : Type} [Add F] (X : External S F G P) (lev : Int)
    (d0 : MultiFab F) :
    ∀ (rest : List S) (acc : MultiFab F), acc.wellFormed → acc.sameLayout d0 →
      (∀ pc ∈ rest, (X.GetChargeDensity pc lev true).sameLayout d0) →
      (rest.foldl (fun rho pci => MultiFab.Add rho (X.GetChargeDensity pci lev true) rho.nGrow)
          acc).sameLayout d0
        ∧ (rest.foldl (fun rho pci => MultiFab.Add rho (X.GetChargeDensity pci lev true) rho.nGrow)
          acc).cells.map Cell.val
          = elementwiseSum (acc.cells.map Cell.val)
              (rest.map fun pc => (X.GetChargeDensity pc lev true).cells.map Cell.val) := by
  intro rest
  induction rest with
  | nil => intro acc _ hl _; exact ⟨hl, rfl⟩
  | cons pc rest ih =>
    intro acc hwf hl hrest
    have hpc := hrest pc (List.mem_cons_self _ _)
    obtain ⟨h1, h2⟩ := addCells_spec acc.nGrow acc.cells (X.GetChargeDensity pc lev true).cells
      (hl.2.trans hpc.2.symm) hwf
    have hwf1 : (MultiFab.Add acc (X.GetChargeDensity pc lev true) acc.nGrow).wellFormed := by
      intro c hc
      have hmem : c.depth ∈ (addCells acc.nGrow acc.cells
          (X.GetChargeDensity pc lev true).cells).map Cell.depth := List.mem_map_of_mem _ hc
      rw [h1] at hmem
      obtain ⟨c0, hc0, hdep⟩ := List.mem_map.mp hmem
      have := hwf c0 hc0
      simp only [MultiFab.Add]
      omega
    have hl1 : (MultiFab.Add acc (X.GetChargeDensity pc lev true) acc.nGrow).sameLayout d0 :=
      ⟨hl.1, h1.trans hl.2⟩
    obtain ⟨h3, h4⟩ := ih _ hwf1 hl1 (fun q hq => hrest q (List.mem_cons_of_mem _ hq))
    refine ⟨h3, ?_⟩
    simp only [List.foldl_cons, List.map_cons, elementwiseSum_cons]
    rw [h4]
    simp only [MultiFab.Add, h2]

/-- C4. For a non-empty collection whose species return local-only densities that are well
formed and share the layout and ghost width of the density of the first species,
GetChargeDensity with local = true returns a field of that layout whose values, over all
cells valid and ghost, are the elementwise sum in collection order of the local-only
densities of all species, with no boundary reduction; with local = false it returns that
same field passed once through SumBoundary with the periodicity of the level geometry of the
first species. -/
theorem GetChargeDensity_is_elementwise_sum {S F G P : Type} [Add F] (X : External S F G P)
    (pc0 : S) (rest : List S) (lev : Int)
    (hwf : (X.GetChargeDensity pc0 lev true).wellFormed)
    (hlay : ∀ pc ∈ rest,
      (X.GetChargeDensity pc lev true).sameLayout (X.GetChargeDensity pc0 lev true)) :
    ∃ rho, GetChargeDensity X (pc0 :: rest) lev true = .ok rho
      ∧ rho.sameLayout (X.GetChargeDensity pc0 lev true)
      ∧ rho.cells.map Cell.val
        = elementwiseSum ((X.GetChargeDensity pc0 lev true).cells.map Cell.val)
            (rest.map fun pc => (X.GetChargeDensity pc lev true).cells.map Cell.val)
      ∧ GetChargeDensity X (pc0 :: rest) lev false
        = .ok (X.SumBoundary rho (X.periodicity (X.Geom pc0 lev))) := by
  obtain ⟨h1, h2⟩ := foldl_Add_spec X lev (X.GetChargeDensity pc0 lev true) rest
    (X.GetChargeDensity pc0 lev true) hwf ⟨rfl, rfl⟩ hlay
  exact ⟨_, by simp [GetChargeDensity], h1, h2, by simp [GetChargeDensity]⟩

/-- Witness for C4: two recording species that both hold the field fieldLevel1 at level 0. -/
theorem GetChargeDensity_is_elementwise_sum_witness :
    ((recorder.GetChargeDensity [fieldLevel1] 0 true).wellFormed
      ∧ (∀ pc ∈ [[fieldLevel1]],
        (recorder.GetChargeDensity pc 0 true).sameLayout
          (recorder.GetChargeDensity [fieldLevel1] 0 true))
      ∧ GetChargeDensity recorder [[fieldLevel1], [fieldLevel1]] 0 true
        = .ok ⟨1, [⟨0, 10⟩, ⟨1, 14⟩]⟩)
    ∧ ∃ rho, GetChargeDensity recorder [[fieldLevel1], [fieldLevel1]] 0 true = .ok rho
      ∧ rho.sameLayout (recorder.GetChargeDensity [fieldLevel1] 0 true)
      ∧ rho.cells.map Cell.val
        = elementwiseSum ((recorder.GetChargeDensity [fieldLevel1] 0 true).cells.map Cell.val)
            ([[fieldLevel1]].map fun pc => (recorder.GetChargeDensity pc 0 true).cells.map Cell.val)
      ∧ GetChargeDensity recorder [[fieldLevel1], [fieldLevel1]] 0 false
        = .ok (recorder.SumBoundary rho (recorder.periodicity (recorder.Geom [fieldLevel1] 0))) :=
  ⟨⟨by decide, by decide, by decide⟩,
    GetChargeDensity_is_elementwise_sum recorder [fieldLevel1] [[fieldLevel1]] 0 (by decide)
      (by decide)⟩

/-- The entry of an elementwise sum at a cell is the sum, over all species, of the entries at
that cell, when addition is associative and commutative and all lists have the same length. -/
theorem elementwiseSum_getD {F : Type} [AddCommMonoid F] (j : Nat) :
    ∀ (others : List (List F)) (first : List F), (∀ o ∈ others, o.length = first.length) →
      (elementwiseSum first others).getD j 0
        = ((first :: others).map fun l => l.getD j 0).sum := by
  intro others
  induction others with
  | nil => intro first _; simp [elementwiseSum]
  | cons o others ih =>
    intro first hlen
    have ho : o.length = first.length := hlen o (List.mem_cons_self _ _)
    have hz : (List.zipWith (· + ·) first o).length = first.length := by simp [ho]
    rw [elementwiseSum_cons, ih _ (fun q hq => by
      rw [hz]; exact hlen q (List.mem_cons_of_mem _ hq))]
    simp only [List.map_cons, List.sum_cons, ← add_assoc]
    congr 1
    simp only [List.getD_eq_getElem?_getD, List.getElem?_zipWith]
    by_cases hj : j < first.length
    · have hjo : j < o.length := ho ▸ hj
      simp [List.getElem?_eq_getElem hj, List.getElem?_eq_getElem hjo]
    · have hjo : ¬ j < o.length := ho ▸ hj
      simp [List.getElem?_eq_none (Nat.le_of_not_lt hj),
        List.getElem?_eq_none (Nat.le_of_not_lt hjo)]

/-! ## Theorems: particle counts -/

theorem wrapLong_add_congr (x x1 y y1 : Int) (hx : wrapLong x = wrapLong x1)
    (hy : wrapLong y = wrapLong y1) : wrapLong (x + y) = wrapLong (x1 + y1) := by
  unfold wrapLong at *
  omega

theorem wrapLong_wrapLong (x : Int) : wrapLong (wrapLong x) = wrapLong x := by
  unfold wrapLong
  omega

theorem wrapLong_of_fits (x : Int) (h1 : -(2 ^ 63) ≤ x) (h2 : x < 2 ^ 63) : wrapLong x = x := by
  unfold wrapLong
  omega

theorem addCount_loop :
    ∀ (ri r preI pre : List Int), pre.length = preI.length → ri.length = r.length →
      forIndices (addCount (preI ++ ri)) (List.range' pre.length ri.length) (pre ++ r)
        = .ok (pre ++ List.zipWith (fun v x => wrapLong (v + x)) r ri) := by
  intro ri
  induction ri with
  | nil =>
    intro r preI pre _ hr
    cases r with
    | nil => simp [forIndices]
    | cons v vs => simp at hr
  | cons x xs ih =>
    intro r preI pre hpre hr
    cases r with
    | nil => simp at hr
    | cons v vs =>
      have hx : (preI ++ x :: xs)[pre.length]? = some x := by
        rw [hpre, List.getElem?_append_right (Nat.le_refl _)]; simp
      have hv : (pre ++ v :: vs)[pre.length]? = some v := by
        rw [List.getElem?_append_right (Nat.le_refl _)]; simp
      have hset : (pre ++ v :: vs).set pre.length (wrapLong (v + x))
          = (pre ++ [wrapLong (v + x)]) ++ vs := by
        rw [List.set_append_right _ _ (Nat.le_refl _)]; simp
      have hnext := ih vs (preI ++ [x]) (pre ++ [wrapLong (v + x)]) (by simp [hpre])
        (by simpa using hr)
      simp only [List.length_append, List.length_singleton, List.append_assoc,
        List.singleton_append] at hnext
      simp only [List.length_cons, List.range'_succ, forIndices, addCount, hx, hv, hset,
        List.append_assoc, List.singleton_append, hnext, List.zipWith_cons_cons]

theorem addSpeciesCounts_ok {S F G P : Type} (X : External S F G P) (lev : Int) :
    ∀ (rest : List S) (r : List Int),
      (∀ pc ∈ rest, (X.NumberOfParticlesInGrid pc lev true true).length = r.length) →
      ∃ out, addSpeciesCounts X lev rest r = .ok out ∧ out.length = r.length
        ∧ ∀ j, wrapLong (out.getD j 0)
          = wrapLong (r.getD j 0
            + (rest.map fun pc => (X.NumberOfParticlesInGrid pc lev true true).getD j 0).sum) := by
  intro rest
  induction rest with
  | nil => intro r _; exact ⟨r, rfl, rfl, fun j => by simp⟩
  | cons pc rest ih =>
    intro r hlen
    have hpc := hlen pc (List.mem_cons_self _ _)
    have hloop := addCount_loop (X.NumberOfParticlesInGrid pc lev true true) r [] [] rfl hpc
    simp only [List.length_nil, List.nil_append, ← List.range_eq_range'] at hloop
    have hzl : (List.zipWith (fun v x => wrapLong (v + x)) r
        (X.NumberOfParticlesInGrid pc lev true true)).length = r.length := by simp [hpc]
    obtain ⟨out, h1, h2, h3⟩ := ih _ (fun q hq => by
      rw [hzl]; exact hlen q (List.mem_cons_of_mem _ hq))
    refine ⟨out, ?_, h2.trans hzl, ?_⟩
    · simp only [addSpeciesCounts, hloop]; exact h1
    · intro j
      rw [h3 j, List.map_cons, List.sum_cons, ← add_assoc]
      apply wrapLong_add_congr _ _ _ _ _ rfl
      simp only [List.getD_eq_getElem?_getD, List.getElem?_zipWith]
      by_cases hj : j < r.length
      · have hjo : j < (X.NumberOfParticlesInGrid pc lev true true).length := hpc ▸ hj
        simp [List.getElem?_eq_getElem hj, List.getElem?_eq_getElem hjo, wrapLong_wrapLong]
      · have hjo : ¬ j < (X.NumberOfParticlesInGrid pc lev true true).length := hpc ▸ hj
        simp [List.getElem?_eq_none (Nat.le_of_not_lt hj),
          List.getElem?_eq_none (Nat.le_of_not_lt hjo)]

theorem localParticlesInGrid_ok {S F G P : Type} (X : External S F G P) (lev : Int) (m : Nat)
    (pcs : List S) (hne : pcs ≠ [])
    (hm : ∀ pc ∈ pcs, (X.NumberOfParticlesInGrid pc lev true true).length = m) :
    ∃ out, localParticlesInGrid X pcs lev = .ok out ∧ out.length = m
      ∧ ∀ j, wrapLong (out.getD j 0)
        = wrapLong ((pcs.map fun pc =>
            (X.NumberOfParticlesInGrid pc lev true true).getD j 0).sum) := by
  cases pcs with
  | nil => exact absurd rfl hne
  | cons pc0 rest =>
    have h0 := hm pc0 (List.mem_cons_self _ _)
    obtain ⟨out, h1, h2, h3⟩ := addSpeciesCounts_ok X lev rest
      (X.NumberOfParticlesInGrid pc0 lev true true) (fun q hq => by
        rw [h0]; exact hm q (List.mem_cons_of_mem _ hq))
    exact ⟨out, h1, h2.trans h0, fun j => by rw [h3 j]; simp⟩

theorem allLocalParticlesInGrid_ok {S F G P : Type} (X : External S F G P) (lev : Int) (m : Nat) :
    ∀ (ranks : List (List S)), (∀ pcs ∈ ranks, pcs ≠ []) →
      (∀ pcs ∈ ranks, ∀ pc ∈ pcs, (X.NumberOfParticlesInGrid pc lev true true).length = m) →
      ∃ locals, allLocalParticlesInGrid X lev ranks = .ok locals
        ∧ locals.length = ranks.length ∧ (∀ loc ∈ locals, loc.length = m)
        ∧ ∀ j, wrapLong ((locals.map fun loc => loc.getD j 0).sum)
          = wrapLong ((ranks.map fun pcs => (pcs.map fun pc =>
              (X.NumberOfParticlesInGrid pc lev true true).getD j 0).sum).sum) := by
  intro ranks
  induction ranks with
  | nil => intro _ _; exact ⟨[], rfl, rfl, by simp, fun j => rfl⟩
  | cons pcs ranks ih =>
    intro hne hm
    obtain ⟨loc, h1, h2, h3⟩ := localParticlesInGrid_ok X lev m pcs
      (hne pcs (List.mem_cons_self _ _)) (hm pcs (List.mem_cons_self _ _))
    obtain ⟨locals, g1, g2, g3, g4⟩ := ih (fun q hq => hne q (List.mem_cons_of_mem _ hq))
      (fun q hq => hm q (List.mem_cons_of_mem _ hq))
    refine ⟨loc :: locals, ?_, by simp [g2], ?_, ?_⟩
    · simp only [allLocalParticlesInGrid, h1, g1]
    · intro l hl
      rcases List.mem_cons.mp hl with h | h
      · rw [h]; exact h2
      · exact g3 l h
    · intro j
      simp only [List.map_cons, List.sum_cons]
      exact wrapLong_add_congr _ _ _ _ (h3 j) (g4 j)

theorem sum_range_getD (v : List Int) :
    ((List.range v.length).map fun j => v.getD j 0).sum = v.sum := by
  induction v with
  | nil => rfl
  | cons a as ih =>
    rw [List.length_cons, List.range_succ_eq_map, List.map_cons, List.sum_cons, List.map_map]
    simp only [List.getD_cons_zero, List.sum_cons]
    congr 1

theorem sum_range_swap {α : Type} (m : Nat) (f : α → Nat → Int) (l : List α) :
    ((List.range m).map fun j => (l.map fun a => f a j).sum).sum
      = (l.map fun a => ((List.range m).map fun j => f a j).sum).sum := by
  induction l with
  | nil => simp
  | cons a as ih => simp only [List.map_cons, List.sum_cons, List.sum_map_add, ih]

/-- C9. For ranks that each hold a non-empty collection, with every species on every rank
returning a per-grid count vector of the same length m, NumberOfParticlesInGrid returns on
every rank one and the same vector of length m; its entry j is the sum, over all ranks and
all species, of the valid-only rank-local counts for grid j, reduced to the range of long,
hence the exact integer sum whenever that sum is representable as a long; and in that case
the entries add up to the number of live particles of all species on all ranks. -/
theorem NumberOfParticlesInGrid_exact_sum {S F G P : Type} (X : External S F G P)
    (ranks : List (List S)) (lev : Int) (m : Nat)
    (hne : ∀ pcs ∈ ranks, pcs ≠ [])
    (hm : ∀ pcs ∈ ranks, ∀ pc ∈ pcs, (X.NumberOfParticlesInGrid pc lev true true).length = m) :
    ∃ r, NumberOfParticlesInGrid X ranks lev = .ok (List.replicate ranks.length r)
      ∧ r.length = m
      ∧ (∀ j < m, r.getD j 0 = wrapLong (exactGridTotal X ranks lev j))
      ∧ ((∀ j < m, -(2 ^ 63) ≤ exactGridTotal X ranks lev j
            ∧ exactGridTotal X ranks lev j < 2 ^ 63) →
          (∀ j < m, r.getD j 0 = exactGridTotal X ranks lev j)
            ∧ r.sum = totalLiveParticles X ranks lev) := by
  obtain ⟨locals, h1, h2, h3, h4⟩ := allLocalParticlesInGrid_ok X lev m ranks hne hm
  have hred : ∀ loc ∈ locals, ReduceLongSum locals loc
      = (List.range m).map fun j => wrapLong (exactGridTotal X ranks lev j) := by
    intro loc hloc
    simp only [ReduceLongSum, h3 loc hloc, exactGridTotal]
    exact List.map_congr_left (fun j _ => h4 j)
  have hget : ∀ j < m, ((List.range m).map fun j =>
      wrapLong (exactGridTotal X ranks lev j)).getD j 0 = wrapLong (exactGridTotal X ranks lev j) := by
    intro j hj
    simp [List.getD_eq_getElem?_getD, List.getElem?_eq_getElem, hj]
  refine ⟨(List.range m).map fun j => wrapLong (exactGridTotal X ranks lev j), ?_, by simp,
    hget, ?_⟩
  · simp only [NumberOfParticlesInGrid, h1]
    rw [List.map_congr_left hred, List.map_const', h2]
  · intro hfit
    have hexact : ∀ j < m, wrapLong (exactGridTotal X ranks lev j) = exactGridTotal X ranks lev j :=
      fun j hj => wrapLong_of_fits _ (hfit j hj).1 (hfit j hj).2
    refine ⟨fun j hj => (hget j hj).trans (hexact j hj), ?_⟩
    rw [List.map_congr_left (fun j hj => hexact j (List.mem_range.mp hj))]
    have hE : (List.range m).map (fun j => exactGridTotal X ranks lev j)
        = (List.range m).map fun j => (ranks.map fun pcs => (pcs.map fun pc =>
            (X.NumberOfParticlesInGrid pc lev true true).getD j 0).sum).sum := rfl
    rw [hE, sum_range_swap m (fun pcs j => (pcs.map fun pc =>
      (X.NumberOfParticlesInGrid pc lev true true).getD j 0).sum) ranks]
    simp only [totalLiveParticles]
    apply congrArg List.sum
    apply List.map_congr_left
    intro pcs hpcs
    rw [sum_range_swap m (fun pc j => (X.NumberOfParticlesInGrid pc lev true true).getD j 0) pcs]
    apply congrArg List.sum
    apply List.map_congr_left
    intro pc hpc
    rw [← hm pcs hpcs pc hpc, sum_range_getD]

/-- Witness for C9: two ranks, the first with two species and the second with one, every
species reporting two grids. -/
theorem NumberOfParticlesInGrid_exact_sum_witness :
    ((∀ pcs ∈ [[[], [fieldLevel0]], [[fieldLevel0, fieldLevel1]]], pcs ≠ [])
      ∧ (∀ pcs ∈ [[[], [fieldLevel0]], [[fieldLevel0, fieldLevel1]]], ∀ pc ∈ pcs,
          (recorder.NumberOfParticlesInGrid pc 0 true true).length = 2)
      ∧ NumberOfParticlesInGrid recorder [[[], [fieldLevel0]], [[fieldLevel0, fieldLevel1]]] 0
          = .ok [[3, 3], [3, 3]]
      ∧ totalLiveParticles recorder [[[], [fieldLevel0]], [[fieldLevel0, fieldLevel1]]] 0 = 6)
    ∧ ∃ r, NumberOfParticlesInGrid recorder [[[], [fieldLevel0]], [[fieldLevel0, fieldLevel1]]] 0
          = .ok (List.replicate [[[], [fieldLevel0]], [[fieldLevel0, fieldLevel1]]].length r)
      ∧ r.length = 2
      ∧ (∀ j < 2, r.getD j 0 = wrapLong
          (exactGridTotal recorder [[[], [fieldLevel0]], [[fieldLevel0, fieldLevel1]]] 0 j))
      ∧ ((∀ j < 2,
            -(2 ^ 63) ≤ exactGridTotal recorder [[[], [fieldLevel0]], [[fieldLevel0, fieldLevel1]]] 0 j
            ∧ exactGridTotal recorder [[[], [fieldLevel0]], [[fieldLevel0, fieldLevel1]]] 0 j
              < 2 ^ 63) →
          (∀ j < 2, r.getD j 0
              = exactGridTotal recorder [[[], [fieldLevel0]], [[fieldLevel0, fieldLevel1]]] 0 j)
            ∧ r.sum
              = totalLiveParticles recorder [[[], [fieldLevel0]], [[fieldLevel0, fieldLevel1]]] 0) :=
  ⟨⟨by decide, by decide, by decide, by decide⟩,
    NumberOfParticlesInGrid_exact_sum recorder [[[], [fieldLevel0]], [[fieldLevel0, fieldLevel1]]]
      0 2 (by decide) (by decide)⟩

end WarpX
